import Mathlib

/-!
Shallow embedding of the CHIP-8 interpreter core (src/src/lib.rs).

Machine integers are modelled as `Nat`, with an explicit `% 2 ^ w`
wherever the Rust code wraps (release-profile two's-complement wrap for
the unchecked `+`/`-` on `u16`, and the source's own `wrapping_add` /
`overflowing_add` / `overflowing_sub` / truncating shifts on `u8`).
Array fields (`ram`, `screen`, `v_reg`, `stack`, `keys`) are modelled as
total functions from the index type; the Rust code indexes them with a
bounds check that aborts the process on failure, so every operation that
can hit such an abort (or an explicit `unimplemented!`) is embedded as an
`Option`-valued function, `none` standing for the panic.
-/

namespace Chip8

def SCREEN_WIDTH : Nat := 64
def SCREEN_HEIGHT : Nat := 32
def RAM_SIZE : Nat := 4096
def NUM_V_REGS : Nat := 16
def STACK_SIZE : Nat := 16
def NUM_KEYS : Nat := 16
def START_ADDR : Nat := 0x200
def FONTSET_SIZE : Nat := 80

def FONTSET : List Nat :=
  [0xF0, 0x90, 0x90, 0x90, 0xF0,
   0x20, 0x60, 0x20, 0x20, 0x70,
   0xF0, 0x10, 0xF0, 0x80, 0xF0,
   0xF0, 0x10, 0xF0, 0x10, 0xF0,
   0x90, 0x90, 0xF0, 0x10, 0x10,
   0xF0, 0x80, 0xF0, 0x10, 0xF0,
   0xF0, 0x80, 0xF0, 0x90, 0xF0,
   0xF0, 0x10, 0x20, 0x40, 0x40,
   0xF0, 0x90, 0xF0, 0x90, 0xF0,
   0xF0, 0x90, 0xF0, 0x10, 0xF0,
   0xF0, 0x90, 0xF0, 0x90, 0x90,
   0xE0, 0x90, 0xE0, 0x90, 0xE0,
   0xF0, 0x80, 0x80, 0x80, 0xF0,
   0xE0, 0x90, 0x90, 0x90, 0xE0,
   0xF0, 0x80, 0xF0, 0x80, 0xF0,
   0xF0, 0x80, 0xF0, 0x80, 0x80]

/-- The machine state of `struct Emu`. -/
structure Emu where
  pc : Nat
  ram : Nat → Nat
  screen : Nat → Bool
  v_reg : Nat → Nat
  i_reg : Nat
  stack : Nat → Nat
  sp : Nat
  dt : Nat
  st : Nat
  keys : Nat → Bool

/-- Pointwise update of an array modelled as a function (`arr[i] = a`). -/
def updF {α : Type} (f : Nat → α) (i : Nat) (a : α) : Nat → α :=
  fun j => if j = i then a else f j

/-- `Emu::new()`: font table installed at the bottom of RAM, all else zeroed. -/
def Emu.new : Emu where
  pc := START_ADDR
  ram := fun a => FONTSET.getD a 0
  screen := fun _ => false
  v_reg := fun _ => 0
  i_reg := 0
  stack := fun _ => 0
  sp := 0
  dt := 0
  st := 0
  keys := fun _ => false

/-- `Emu::reset()` has the same effect as `Emu::new()`. -/
def reset (_ : Emu) : Emu := Emu.new

/-- `Emu::tick_timers`: each timer decrements when nonzero.  The branch
`if self.st == 1 { /* beep */ }` of the source is empty and the function
returns nothing, so the embedding has codomain `Emu`: no signal of any
kind is produced for the caller. -/
def tick_timers (e : Emu) : Emu :=
  { e with
    dt := if 0 < e.dt then e.dt - 1 else e.dt
    st := if 0 < e.st then e.st - 1 else e.st }

/-- `Emu::keypress`: `self.keys[index] = pressed`; an index outside 0..15
aborts on the bounds check (`none`). -/
def keypress (e : Emu) (index : Nat) (pressed : Bool) : Option Emu :=
  if index < NUM_KEYS then some { e with keys := updF e.keys index pressed }
  else none

/-- `Emu::load`: copy `data` into RAM starting at 0x200; the slice write
aborts when the image reaches past the end of RAM (`none`). -/
def load (e : Emu) (data : List Nat) : Option Emu :=
  if START_ADDR + data.length ≤ RAM_SIZE then
    some { e with
            ram := fun a =>
              if START_ADDR ≤ a ∧ a < START_ADDR + data.length then
                data.getD (a - START_ADDR) 0
              else e.ram a }
  else none

/-- `Emu::push`: `stack[sp] = value; sp += 1`; a push with the stack at
capacity aborts on the bounds check (`none`). -/
def push (e : Emu) (value : Nat) : Option Emu :=
  if e.sp < STACK_SIZE then
    some { e with stack := updF e.stack e.sp value, sp := e.sp + 1 }
  else none

/-- `Emu::pop`: `sp -= 1; stack[sp]`; a pop of an empty stack aborts
(debug-profile underflow, or the wrapped index 0xFFFF out of bounds). -/
def pop (e : Emu) : Option (Nat × Emu) :=
  if 0 < e.sp then some (e.stack (e.sp - 1), { e with sp := e.sp - 1 })
  else none

/-- `Emu::fetch`: big-endian combine of the two bytes at `pc`, advancing
`pc` by 2.  Reading at or past the end of RAM aborts (`none`). -/
def fetch (e : Emu) : Option (Nat × Emu) :=
  if e.pc + 1 < RAM_SIZE then
    some ((e.ram e.pc <<< 8) ||| e.ram (e.pc + 1), { e with pc := e.pc + 2 })
  else none

/-- Row-major framebuffer index of the pixel the draw loop targets for
loop offsets `(dy, dx)`: the source computes
`x = (x + delta_x) % SCREEN_WIDTH`, `y = (y + delta_y) % SCREEN_HEIGHT`,
`index = y * SCREEN_WIDTH + x`. -/
def scrIdx (xN yN dy dx : Nat) : Nat :=
  ((yN + dy) % SCREEN_HEIGHT) * SCREEN_WIDTH + (xN + dx) % SCREEN_WIDTH

/-- One iteration of the inner draw loop: test sprite bit
`flips & (0x80 >> delta_x) != 0` and, when set, record a collision with
the current pixel and XOR-toggle it.  The accumulator is the pair
(screen, flipped). -/
def drawStep (ram : Nat → Nat) (iv xN yN : Nat)
    (acc : (Nat → Bool) × Bool) (p : Nat × Nat) : (Nat → Bool) × Bool :=
  if ram (iv + p.1) / 2 ^ (7 - p.2) % 2 = 1 then
    (updF acc.1 (scrIdx xN yN p.1 p.2) (!acc.1 (scrIdx xN yN p.1 p.2)),
     acc.2 || acc.1 (scrIdx xN yN p.1 p.2))
  else acc

/-- The iteration space of the two nested draw loops,
`for delta_y in 0..n { for delta_x in 0..8 { .. } }`, in loop order. -/
def drawPts (n : Nat) : List (Nat × Nat) :=
  (List.range n).flatMap (fun dy => (List.range 8).map (fun dx => (dy, dx)))

/-- The whole double loop of the draw opcode, folded in loop order from
the initial accumulator (screen, flipped = false). -/
def drawRun (ram : Nat → Nat) (iv xN yN n : Nat) (scr : Nat → Bool) :
    (Nat → Bool) × Bool :=
  (drawPts n).foldl (drawStep ram iv xN yN) (scr, false)

/-- The target pixel of loop offset `p`, when its sprite bit is set.
Used only to reason about `drawRun`. -/
def drawTgt (ram : Nat → Nat) (iv xN yN : Nat) (p : Nat × Nat) : Option Nat :=
  if ram (iv + p.1) / 2 ^ (7 - p.2) % 2 = 1 then
    some (scrIdx xN yN p.1 p.2)
  else none

/-- The list of pixels the draw opcode toggles, in visit order. -/
def drawTgts (ram : Nat → Nat) (iv xN yN n : Nat) : List Nat :=
  (drawPts n).filterMap (drawTgt ram iv xN yN)

/-- The `for index in 0..NUM_KEYS` scan of `FX0A`: first pressed key at
or above `i`, with `fuel` indices left to inspect. -/
def findKeyFrom (keys : Nat → Bool) : Nat → Nat → Option Nat
  | 0, _ => none
  | fuel + 1, i => if keys i then some i else findKeyFrom keys fuel (i + 1)

/-- `Emu::execute` after the four nibbles have been extracted: the match
over `(digit1, digit2, digit3, digit4)`, arm for arm in source order.
`rnd` is the byte the source draws from `rand::random()` in the `CXNN`
arm; it is threaded in as an explicit parameter.  The final wildcard arm
is `unimplemented!` (a panic, hence `none`), and every in-arm RAM or key
index beyond its array aborts likewise. -/
def execOp (e : Emu) (rnd op d1 d2 d3 d4 : Nat) : Option Emu :=
  if d1 = 0 ∧ d2 = 0 ∧ d3 = 0 ∧ d4 = 0 then
    some e
  else if d1 = 0 ∧ d2 = 0 ∧ d3 = 0xE ∧ d4 = 0 then
    some { e with screen := fun _ => false }
  else if d1 = 0 ∧ d2 = 0 ∧ d3 = 0xE ∧ d4 = 0xE then
    (pop e).map (fun pr => { pr.2 with pc := pr.1 })
  else if d1 = 1 then
    some { e with pc := op % 4096 }
  else if d1 = 2 then
    (push e e.pc).map (fun e1 => { e1 with pc := op % 4096 })
  else if d1 = 3 then
    some (if e.v_reg d2 = op % 256 then { e with pc := (e.pc + 2) % 65536 } else e)
  else if d1 = 4 then
    some (if e.v_reg d2 ≠ op % 256 then { e with pc := (e.pc + 2) % 65536 } else e)
  else if d1 = 5 ∧ d4 = 0 then
    some (if e.v_reg d2 = e.v_reg d3 then { e with pc := (e.pc + 2) % 65536 } else e)
  else if d1 = 6 then
    some { e with v_reg := updF e.v_reg d2 (op % 256) }
  else if d1 = 7 then
    some { e with v_reg := updF e.v_reg d2 ((e.v_reg d2 + op % 256) % 256) }
  else if d1 = 8 ∧ d4 = 0 then
    some { e with v_reg := updF e.v_reg d2 (e.v_reg d3) }
  else if d1 = 8 ∧ d4 = 1 then
    some { e with v_reg := updF e.v_reg d2 (e.v_reg d2 ||| e.v_reg d3) }
  else if d1 = 8 ∧ d4 = 2 then
    some { e with v_reg := updF e.v_reg d2 (e.v_reg d2 &&& e.v_reg d3) }
  else if d1 = 8 ∧ d4 = 3 then
    some { e with v_reg := updF e.v_reg d2 (e.v_reg d2 ^^^ e.v_reg d3) }
  else if d1 = 8 ∧ d4 = 4 then
    let result := (e.v_reg d2 + e.v_reg d3) % 256
    let carry := 255 < e.v_reg d2 + e.v_reg d3
    some { e with v_reg := updF (updF e.v_reg d2 result) 0xF (if carry then 1 else 0) }
  else if d1 = 8 ∧ d4 = 5 then
    let result := (e.v_reg d2 + 256 - e.v_reg d3) % 256
    let borrow := e.v_reg d2 < e.v_reg d3
    some { e with v_reg := updF (updF e.v_reg d2 result) 0xF (if borrow then 0 else 1) }
  else if d1 = 8 ∧ d4 = 6 then
    let dropped := e.v_reg d2 * 1
    some { e with v_reg := updF (updF e.v_reg d2 (e.v_reg d2 / 2)) 0xF dropped }
  else if d1 = 8 ∧ d4 = 7 then
    let result := (e.v_reg d3 + 256 - e.v_reg d2) % 256
    let borrow := e.v_reg d3 < e.v_reg d2
    some { e with v_reg := updF (updF e.v_reg d2 result) 0xF (if borrow then 0 else 1) }
  else if d1 = 8 ∧ d4 = 0xE then
    let dropped := e.v_reg d2 / 128 % 2
    some { e with v_reg := updF (updF e.v_reg d2 (e.v_reg d2 * 2 % 256)) 0xF dropped }
  else if d1 = 9 ∧ d4 = 0 then
    some (if e.v_reg d2 ≠ e.v_reg d3 then { e with pc := (e.pc + 2) % 65536 } else e)
  else if d1 = 0xA then
    some { e with i_reg := op % 4096 }
  else if d1 = 0xB then
    some { e with pc := (e.v_reg 0 + op % 4096) % 65536 }
  else if d1 = 0xC then
    some { e with v_reg := updF e.v_reg d2 (rnd &&& op % 256) }
  else if d1 = 0xD then
    if d4 = 0 ∨ e.i_reg + d4 ≤ RAM_SIZE then
      let res := drawRun e.ram e.i_reg d2 d3 d4 e.screen
      some { e with screen := res.1,
                    v_reg := updF e.v_reg 0xF (if res.2 then 1 else 0) }
    else none
  else if d1 = 0xE ∧ d3 = 9 ∧ d4 = 0xE then
    if e.v_reg d2 < NUM_KEYS then
      some (if e.keys (e.v_reg d2) then { e with pc := (e.pc + 2) % 65536 } else e)
    else none
  else if d1 = 0xE ∧ d3 = 0xA ∧ d4 = 1 then
    if e.v_reg d2 < NUM_KEYS then
      some (if !e.keys (e.v_reg d2) then { e with pc := (e.pc + 2) % 65536 } else e)
    else none
  else if d1 = 0xF ∧ d3 = 0 ∧ d4 = 7 then
    some { e with v_reg := updF e.v_reg d2 e.dt }
  else if d1 = 0xF ∧ d3 = 0 ∧ d4 = 0xA then
    some (match findKeyFrom e.keys NUM_KEYS 0 with
          | some k => { e with v_reg := updF e.v_reg d2 k }
          | none => { e with pc := (e.pc + 65534) % 65536 })
  else if d1 = 0xF ∧ d3 = 1 ∧ d4 = 5 then
    some { e with dt := e.v_reg d2 }
  else if d1 = 0xF ∧ d3 = 1 ∧ d4 = 8 then
    some { e with st := e.v_reg d2 }
  else if d1 = 0xF ∧ d3 = 1 ∧ d4 = 0xE then
    some { e with i_reg := (e.i_reg + e.v_reg d2) % 65536 }
  else if d1 = 0xF ∧ d3 = 2 ∧ d4 = 9 then
    some { e with i_reg := 5 * e.v_reg d2 }
  else if d1 = 0xF ∧ d3 = 3 ∧ d4 = 3 then
    if e.i_reg + 2 < RAM_SIZE then
      let ram1 := (List.range 3).foldl
        (fun r i => updF r (e.i_reg + i) (e.v_reg d2 / 10 ^ i % 10)) e.ram
      some { e with ram := ram1 }
    else none
  else if d1 = 0xF ∧ d3 = 5 ∧ d4 = 5 then
    if e.i_reg + d2 < RAM_SIZE then
      let ram1 := (List.range (d2 + 1)).foldl
        (fun r i => updF r (e.i_reg + i) (e.v_reg i)) e.ram
      some { e with ram := ram1 }
    else none
  else if d1 = 0xF ∧ d3 = 6 ∧ d4 = 5 then
    if e.i_reg + d2 < RAM_SIZE then
      let vr1 := (List.range (d2 + 1)).foldl
        (fun v i => updF v i (e.ram (e.i_reg + i))) e.v_reg
      some { e with v_reg := vr1 }
    else none
  else
    none

/-- `Emu::execute`: extract the four nibbles of the opcode word (the
source's shift-and-mask is division and remainder by powers of two) and
dispatch. -/
def execute (e : Emu) (op rnd : Nat) : Option Emu :=
  execOp e rnd op (op / 4096 % 16) (op / 256 % 16) (op / 16 % 16) (op % 16)

/-- `Emu::tick`: fetch, then decode and execute. -/
def tick (e : Emu) (rnd : Nat) : Option Emu :=
  (fetch e).bind (fun pr => execute pr.2 pr.1 rnd)

/-- An all-zero machine state used to build concrete test states. -/
def emuZero : Emu where
  pc := START_ADDR
  ram := fun _ => 0
  screen := fun _ => false
  v_reg := fun _ => 0
  i_reg := 0
  stack := fun _ => 0
  sp := 0
  dt := 0
  st := 0
  keys := fun _ => false

/-- One iteration of the draw loop restricted to a set sprite bit with
target pixel `t`: toggle `t` and accumulate the collision flag.  Used
only to reason about `drawRun`. -/
def togStep (acc : (Nat → Bool) × Bool) (t : Nat) : (Nat → Bool) × Bool :=
  (updF acc.1 t (!acc.1 t), acc.2 || acc.1 t)

/-- Concrete state for claim C1: register 1 holds 234, index register
points at 0x300. -/
def bcdEmu : Emu :=
  { emuZero with v_reg := fun j => if j = 1 then 234 else 0, i_reg := 768 }

/-- Concrete state for claim C2: register 1 holds 20, register 2 holds
5, a one-row sprite 0x80 sits at 0x300. -/
def sprEmu : Emu :=
  { emuZero with
    v_reg := fun j => if j = 1 then 20 else if j = 2 then 5 else 0,
    i_reg := 768,
    ram := fun a => if a = 768 then 128 else 0 }

/-- Concrete state for claim C3: register 2 holds 2 (binary 10, so the
least-significant bit is 0). -/
def shrEmu : Emu := { emuZero with v_reg := fun j => if j = 2 then 2 else 0 }

/-- Concrete state for claim C4: sound timer 1, delay timer 3. -/
def sndEmu : Emu := { emuZero with st := 1, dt := 3 }

/-- Concrete state for claim C5's witness: stack at capacity, program
counter on the last RAM byte, index register past the end of RAM, every
register holding 16. -/
def fatalEmu : Emu :=
  { emuZero with sp := 16, pc := 4095, i_reg := 4096, v_reg := fun _ => 16 }

/-- Concrete state for claim C6's witness: opcode 0xF30A at 0x200, no
keys pressed. -/
def waitEmu : Emu :=
  { emuZero with ram := fun a => if a = 512 then 243 else if a = 513 then 10 else 0 }

/-- Concrete state for claim C7's witness: opcode 0x2300 (call 0x300) at
0x200 and opcode 0x00EE (return) at 0x300. -/
def callEmu : Emu :=
  { emuZero with
    ram := fun a =>
      if a = 512 then 35 else if a = 513 then 0 else if a = 769 then 238 else 0 }

/-- Concrete state for claim C8's witness: two-row sprite 0xA5, 0x5A at
0x300, blank screen. -/
def dblEmu : Emu :=
  { emuZero with
    i_reg := 768,
    ram := fun a => if a = 768 then 165 else if a = 769 then 90 else 0 }

end Chip8

namespace Chip8

theorem updF_self {α : Type} (f : Nat → α) (i : Nat) (a : α) : updF f i a i = a := by
  simp [updF]

theorem updF_ne {α : Type} (f : Nat → α) {i j : Nat} (a : α) (h : j ≠ i) :
    updF f i a j = f j := by
  simp [updF, h]

/-- Big-endian byte concatenation: the shift-and-or of `fetch` is plain
positional arithmetic when the low byte is in range. -/
theorem byte_or (a b : Nat) (hb : b < 256) : (a <<< 8) ||| b = a * 256 + b := by
  apply Nat.eq_of_testBit_eq
  intro i
  have h256 : a * 256 + b = 2 ^ 8 * a + b := by ring_nf
  rw [h256, Nat.testBit_mul_pow_two_add a (show b < 2 ^ 8 by omega) i,
    Nat.testBit_lor, Nat.testBit_shiftLeft]
  by_cases hi : i < 8
  · simp [hi, Nat.not_le.mpr hi]
  · have h2i : 256 ≤ 2 ^ i := by
      calc (256 : Nat) = 2 ^ 8 := by norm_num
        _ ≤ 2 ^ i := Nat.pow_le_pow_right (by omega) (by omega)
    have hbi : b.testBit i = false := Nat.testBit_lt_two_pow (by omega)
    simp [hi, Nat.not_lt.mp hi, hbi]

end Chip8

namespace Chip8

/-- Claim C1 (what the code actually does at the claimed failing input):
executing `FX33` with register 1 holding 234 and index register 0x300
writes the ones digit 4 at 0x300, the tens digit 3 at 0x301 and the
hundreds digit 2 at 0x302 — the mirror image of the claimed
hundreds-first order, because the loop writes `(num / 10 ^ i) % 10` at
`index + i`. -/
theorem c1_bcd_written_ones_first :
    (execute bcdEmu 0xF133 0).map (fun e => (e.ram 768, e.ram 769, e.ram 770))
      = some (4, 3, 2) := by
  decide

/-- Claim C2 (what the code actually does at the claimed failing input):
executing `0xD121` with register 1 holding 20 and register 2 holding 5
lights the pixel at column 1, row 2 (framebuffer index 129) — the
opcode nibbles — and leaves the pixel at column 20, row 5 (index 340)
dark, because the draw arm shadows `x`/`y` with the register *indices*
and never reads `v_reg`.  The collision flag is 0. -/
theorem c2_draw_origin_is_nibbles :
    (execute sprEmu 0xD121 0).map (fun e => (e.screen 129, e.screen 340, e.v_reg 15))
      = some (true, false, 0) := by
  decide

/-- Claim C3 (what the code actually does at the claimed failing input):
executing `0x8206` with register 2 holding 2 shifts register 2 to 1 but
stores the whole pre-shift value 2 into the flag register, because the
source computes `dropped = v_reg[x] * 1` instead of isolating the
least-significant bit (which is 0 here). -/
theorem c3_shift_flag_full_value :
    (execute shrEmu 0x8206 0).map (fun e => (e.v_reg 2, e.v_reg 15)) = some (1, 2) := by
  decide

/-- Claim C4 (what the code actually does at the claimed failing input):
one timer tick from sound timer 1 yields sound timer 0, and a further
tick leaves it 0; `tick_timers` has codomain `Emu` — the branch that
detects the 1-to-0 transition is empty in the source, so no observable
signal of any kind reaches the caller. -/
theorem c4_sound_tick_emits_nothing :
    (tick_timers sndEmu).st = 0 ∧ (tick_timers (tick_timers sndEmu)).st = 0 ∧
      (tick_timers sndEmu).dt = 2 := by
  decide

end Chip8

namespace Chip8

/-- Claim C9, counterexample: with every register 0, executing `0x7F01`
(add 1 to register 15) changes the flag register from 0 to 1 — the
claim's universal quantification over the register index includes
X = 15, where the destination *is* the flag register, so the opcode
does touch it. -/
theorem c9_add_to_vf_touches_flag :
    emuZero.v_reg 15 = 0 ∧
      (execute emuZero 0x7F01 0).map (fun e => e.v_reg 15) = some 1 := by
  decide

/-- Claim C9 as amended: `0x7XNN` stores `(a + NN) mod 256` into
register X and leaves every other register — in particular the flag
register whenever X ≠ 15 — unchanged, and the opcode succeeds. -/
theorem c9_add_wraps_and_spares_other_regs (e : Emu) (x nn r : Nat)
    (hx : x < 16) (hnn : nn < 256) :
    ∃ e1, execute e (0x7000 + x * 256 + nn) r = some e1 ∧
      e1.v_reg x = (e.v_reg x + nn) % 256 ∧
      (∀ j, j ≠ x → e1.v_reg j = e.v_reg j) := by
  have hd1 : (0x7000 + x * 256 + nn) / 4096 % 16 = 7 := by omega
  have hd2 : (0x7000 + x * 256 + nn) / 256 % 16 = x := by omega
  have hnn' : (0x7000 + x * 256 + nn) % 256 = nn := by omega
  have hstep : execute e (0x7000 + x * 256 + nn) r = some { e with v_reg := updF e.v_reg x ((e.v_reg x + (0x7000 + x * 256 + nn) % 256) % 256) } := by
    unfold execute
    rw [hd1, hd2]
    rfl
  rw [hnn'] at hstep
  refine ⟨_, hstep, ?_, ?_⟩
  · exact updF_self _ _ _
  · intro j hj
    exact updF_ne _ _ hj

/-- Witness for the amended claim C9 at X = 3, a = 0, NN = 7. -/
theorem c9_add_wraps_and_spares_other_regs_witness :
    ∃ e1, execute emuZero (0x7000 + 3 * 256 + 7) 0 = some e1 ∧
      e1.v_reg 3 = (emuZero.v_reg 3 + 7) % 256 ∧
      (∀ j, j ≠ 3 → e1.v_reg j = emuZero.v_reg j) :=
  c9_add_wraps_and_spares_other_regs emuZero 3 7 0 (by decide) (by decide)

/-- Claim C10: the random byte parameter is consulted only by the `CXNN`
arm, so executing any opcode whose leading nibble is not 0xC from equal
states with different random bytes yields equal results. -/
theorem execOp_rnd_irrelevant (e : Emu) (op d1 d2 d3 d4 r1 r2 : Nat) (h : d1 ≠ 12) :
    execOp e r1 op d1 d2 d3 d4 = execOp e r2 op d1 d2 d3 d4 := by
  unfold execOp
  rw [if_neg h, if_neg h]

theorem c10_execute_deterministic_off_cxnn (e : Emu) (op r1 r2 : Nat)
    (h : op / 4096 % 16 ≠ 12) :
    execute e op r1 = execute e op r2 := by
  unfold execute
  exact execOp_rnd_irrelevant e op _ _ _ _ r1 r2 h

/-- Witness for claim C10 at the clear-screen opcode with random bytes
1 and 2. -/
theorem c10_execute_deterministic_off_cxnn_witness :
    execute emuZero 0x00E0 1 = execute emuZero 0x00E0 2 :=
  c10_execute_deterministic_off_cxnn emuZero 0x00E0 1 2 (by decide)

end Chip8

namespace Chip8

/-- Claim C5, counterexample: executing the unknown opcode `0x5001` from
the all-zero state hits the wildcard arm `unimplemented!` — a process
abort, embedded as `none`.  No error value of any kind is produced for
the driver (the core's API has no error type at all), contradicting the
claim that each fatal condition is surfaced as a distinguishable error
value rather than a panic. -/
theorem c5_unknown_opcode_aborts :
    execute emuZero 0x5001 0 = none := rfl

/-- Claim C5 as amended: every fatal condition of the claim's list —
unknown opcode, call with the stack at capacity 16, return with an empty
stack, fetch, sprite read, BCD write, register dump/load past the end of
the 4096-byte RAM, a key index outside 0–15 from `keypress` or from the
register consulted by `EX9E`, and an overlong program load — makes the
operation abort (a Rust panic, embedded as `none`) instead of returning
an error value; the core defines no error type. -/
theorem c5_fatal_conditions_panic (e e0 : Emu) (r i : Nat) (p : Bool) (data : List Nat) :
    execute e 0x5001 r = none
    ∧ (e.sp = 16 → execute e 0x2300 r = none)
    ∧ (e0.sp = 0 → execute e0 0x00EE r = none)
    ∧ (4095 ≤ e.pc → fetch e = none)
    ∧ (4096 ≤ e.i_reg → execute e 0xD001 r = none)
    ∧ (4094 ≤ e.i_reg → execute e 0xF033 r = none)
    ∧ (4096 ≤ e.i_reg → execute e 0xF055 r = none)
    ∧ (4096 ≤ e.i_reg → execute e 0xF065 r = none)
    ∧ (16 ≤ e.v_reg 0 → execute e 0xE09E r = none)
    ∧ (16 ≤ i → keypress e i p = none)
    ∧ (4096 < 512 + data.length → load e data = none) := by
  refine ⟨?_, ?_, ?_, ?_, ?_, ?_, ?_, ?_, ?_, ?_, ?_⟩
  · rfl
  · intro h
    have hc : execute e 0x2300 r = (push e e.pc).map (fun e1 => { e1 with pc := 0x2300 % 4096 }) := rfl
    rw [hc, push, STACK_SIZE, h]
    simp
  · intro h
    have hc : execute e0 0x00EE r = (pop e0).map (fun pr => { pr.2 with pc := pr.1 }) := rfl
    rw [hc, pop, h]
    simp
  · intro h
    rw [fetch, RAM_SIZE, if_neg (by omega)]
  · intro h
    have hc : execute e 0xD001 r = (if (1 : Nat) = 0 ∨ e.i_reg + 1 ≤ RAM_SIZE then some { e with screen := (drawRun e.ram e.i_reg 0 0 1 e.screen).1, v_reg := updF e.v_reg 15 (if (drawRun e.ram e.i_reg 0 0 1 e.screen).2 then 1 else 0) } else none) := rfl
    rw [hc, RAM_SIZE, if_neg (by omega)]
  · intro h
    have hc : execute e 0xF033 r = (if e.i_reg + 2 < RAM_SIZE then some { e with ram := (List.range 3).foldl (fun ram1 k => updF ram1 (e.i_reg + k) (e.v_reg 0 / 10 ^ k % 10)) e.ram } else none) := rfl
    rw [hc, RAM_SIZE, if_neg (by omega)]
  · intro h
    have hc : execute e 0xF055 r = (if e.i_reg + 0 < RAM_SIZE then some { e with ram := (List.range (0 + 1)).foldl (fun ram1 k => updF ram1 (e.i_reg + k) (e.v_reg k)) e.ram } else none) := rfl
    rw [hc, RAM_SIZE, if_neg (by omega)]
  · intro h
    have hc : execute e 0xF065 r = (if e.i_reg + 0 < RAM_SIZE then some { e with v_reg := (List.range (0 + 1)).foldl (fun vr k => updF vr k (e.ram (e.i_reg + k))) e.v_reg } else none) := rfl
    rw [hc, RAM_SIZE, if_neg (by omega)]
  · intro h
    have hc : execute e 0xE09E r = (if e.v_reg 0 < NUM_KEYS then some (if e.keys (e.v_reg 0) then { e with pc := (e.pc + 2) % 65536 } else e) else none) := rfl
    rw [hc, NUM_KEYS, if_neg (by omega)]
  · intro h
    rw [keypress, NUM_KEYS, if_neg (by omega)]
  · intro h
    rw [load, START_ADDR, RAM_SIZE, if_neg (by omega)]

/-- Witness for the amended claim C5: a state with the stack full, the
program counter on the last RAM byte, the index register and every
register out of range, plus an empty stack state, key index 16, and a
3585-byte program image. -/
theorem c5_fatal_conditions_panic_witness :
    execute fatalEmu 0x5001 0 = none
    ∧ (fatalEmu.sp = 16 → execute fatalEmu 0x2300 0 = none)
    ∧ (emuZero.sp = 0 → execute emuZero 0x00EE 0 = none)
    ∧ (4095 ≤ fatalEmu.pc → fetch fatalEmu = none)
    ∧ (4096 ≤ fatalEmu.i_reg → execute fatalEmu 0xD001 0 = none)
    ∧ (4094 ≤ fatalEmu.i_reg → execute fatalEmu 0xF033 0 = none)
    ∧ (4096 ≤ fatalEmu.i_reg → execute fatalEmu 0xF055 0 = none)
    ∧ (4096 ≤ fatalEmu.i_reg → execute fatalEmu 0xF065 0 = none)
    ∧ (16 ≤ fatalEmu.v_reg 0 → execute fatalEmu 0xE09E 0 = none)
    ∧ (16 ≤ 16 → keypress fatalEmu 16 true = none)
    ∧ (4096 < 512 + (List.replicate 3585 0).length → load fatalEmu (List.replicate 3585 0) = none) :=
  c5_fatal_conditions_panic fatalEmu emuZero 0 16 true (List.replicate 3585 0)

end Chip8

namespace Chip8

theorem push_of_lt (e : Emu) (v : Nat) (h : e.sp < 16) :
    push e v = some { e with stack := updF e.stack e.sp v, sp := e.sp + 1 } := by
  rw [push]
  exact if_pos h

theorem pop_of_pos (e : Emu) (h : 0 < e.sp) :
    pop e = some (e.stack (e.sp - 1), { e with sp := e.sp - 1 }) := by
  rw [pop]
  exact if_pos h

theorem execOp_call (e : Emu) (rnd op d2 d3 d4 : Nat) :
    execOp e rnd op 2 d2 d3 d4
      = (push e e.pc).map (fun e1 => { e1 with pc := op % 4096 }) := rfl

theorem execOp_ret (e : Emu) (rnd op : Nat) :
    execOp e rnd op 0 0 14 14
      = (pop e).map (fun pr => { pr.2 with pc := pr.1 }) := rfl

theorem execOp_fx0a (e : Emu) (rnd op x : Nat) :
    execOp e rnd op 15 x 0 10
      = some (match findKeyFrom e.keys 16 0 with
              | some k => { e with v_reg := updF e.v_reg x k }
              | none => { e with pc := (e.pc + 65534) % 65536 }) := rfl

theorem findKeyFrom_eq_none (keys : Nat → Bool) :
    ∀ fuel i, (∀ j, i ≤ j → j < i + fuel → keys j = false) →
      findKeyFrom keys fuel i = none := by
  intro fuel
  induction fuel with
  | zero => intro i _; rfl
  | succ f ih =>
    intro i h
    rw [findKeyFrom, h i (by omega) (by omega)]
    simp only [Bool.false_eq_true, if_false]
    exact ih (i + 1) (fun j h1 h2 => h j (by omega) (by omega))

theorem findKeyFrom_eq_some (keys : Nat → Bool) :
    ∀ fuel i k, i ≤ k → k < i + fuel → keys k = true →
      (∀ j, i ≤ j → j < k → keys j = false) →
      findKeyFrom keys fuel i = some k := by
  intro fuel
  induction fuel with
  | zero => intro i k h1 h2 _ _; omega
  | succ f ih =>
    intro i k h1 h2 hk hlow
    rw [findKeyFrom]
    rcases Nat.eq_or_lt_of_le h1 with heq | hlt
    · rw [← heq] at hk
      rw [hk]
      simp [heq]
    · rw [hlow i (by omega) (by omega)]
      simp only [Bool.false_eq_true, if_false]
      exact ih (i + 1) k (by omega) (by omega) hk (fun j ha hb => hlow j (by omega) hb)

/-- Claim C6: a fetch-and-execute cycle of `FX0A` (here placed at the
program counter, with `x < 16`) leaves the program counter and the
registers unchanged when no key latch is pressed; when some key is
pressed, the lowest pressed index is stored in register X and the
program counter advances by 2. -/
theorem c6_wait_key_blocks_or_stores_lowest (e : Emu) (x r : Nat)
    (hx : x < 16) (hpc : e.pc + 1 < 4096)
    (hhi : e.ram e.pc = 240 + x) (hlo : e.ram (e.pc + 1) = 10) :
    ((∀ i, i < 16 → e.keys i = false) →
      ∃ e1, tick e r = some e1 ∧ e1.pc = e.pc ∧ (∀ j, e1.v_reg j = e.v_reg j))
    ∧ (∀ k, k < 16 → e.keys k = true → (∀ j, j < k → e.keys j = false) →
      ∃ e1, tick e r = some e1 ∧ e1.pc = e.pc + 2 ∧ e1.v_reg x = k) := by
  have hop : (240 + x) <<< 8 ||| 10 = (240 + x) * 256 + 10 := byte_or _ _ (by omega)
  have hd1 : ((240 + x) * 256 + 10) / 4096 % 16 = 15 := by omega
  have hd2 : ((240 + x) * 256 + 10) / 256 % 16 = x := by omega
  have hd3 : ((240 + x) * 256 + 10) / 16 % 16 = 0 := by omega
  have hd4 : ((240 + x) * 256 + 10) % 16 = 10 := by omega
  have htick : tick e r = some (match findKeyFrom e.keys 16 0 with
      | some k => { e with pc := e.pc + 2, v_reg := updF e.v_reg x k }
      | none => { e with pc := (e.pc + 2 + 65534) % 65536 }) := by
    rw [tick, fetch, RAM_SIZE, if_pos hpc, hhi, hlo]
    show execute { e with pc := e.pc + 2 } ((240 + x) <<< 8 ||| 10) r = _
    rw [hop]
    unfold execute
    rw [hd1, hd2, hd3, hd4, execOp_fx0a]
  constructor
  · intro hk
    have hnone : findKeyFrom e.keys 16 0 = none :=
      findKeyFrom_eq_none e.keys 16 0 (fun j h1 h2 => hk j (by omega))
    rw [hnone] at htick
    refine ⟨_, htick, ?_, ?_⟩
    · show (e.pc + 2 + 65534) % 65536 = e.pc
      omega
    · intro j
      rfl
  · intro k hk hkt hklow
    have hsome : findKeyFrom e.keys 16 0 = some k :=
      findKeyFrom_eq_some e.keys 16 0 k (by omega) (by omega) hkt
        (fun j h1 h2 => hklow j h2)
    rw [hsome] at htick
    refine ⟨_, htick, rfl, ?_⟩
    exact updF_self _ _ _

/-- Witness for claim C6 in both halves: `0xF30A` at 0x200 with no keys
pressed, and the same state with exactly key 3 pressed. -/
theorem c6_wait_key_blocks_or_stores_lowest_witness :
    (∃ e1, tick waitEmu 0 = some e1 ∧ e1.pc = waitEmu.pc ∧
      (∀ j, e1.v_reg j = waitEmu.v_reg j))
    ∧ (∃ e1, tick { waitEmu with keys := fun k => k == 3 } 0 = some e1 ∧
      e1.pc = { waitEmu with keys := fun k => k == 3 }.pc + 2 ∧ e1.v_reg 3 = 3) := by
  constructor
  · exact (c6_wait_key_blocks_or_stores_lowest waitEmu 3 0 (by decide) (by decide)
      (by decide) (by decide)).1 (by decide)
  · exact (c6_wait_key_blocks_or_stores_lowest { waitEmu with keys := fun k => k == 3 }
      3 0 (by decide) (by decide) (by decide) (by decide)).2 3 (by decide) (by decide)
      (by decide)

end Chip8

namespace Chip8

/-- Claim C7: from any state with room on the stack, fetching and
executing a `2NNN` call located at the program counter pushes the
address of the following instruction (old program counter + 2), jumps to
NNN, and a fetch-and-execute of the `00EE` return placed at NNN restores
the program counter to old program counter + 2 and the stack pointer to
its pre-call value. -/
theorem c7_call_ret_roundtrip (e : Emu) (nnn r1 r2 : Nat)
    (hsp : e.sp < 16) (hpc : e.pc + 1 < 4096)
    (hhi : e.ram e.pc = 32 + nnn / 256) (hlo : e.ram (e.pc + 1) = nnn % 256)
    (hret0 : e.ram nnn = 0) (hret1 : e.ram (nnn + 1) = 238)
    (hrpc : nnn + 1 < 4096) :
    ∃ e1 e2, tick e r1 = some e1 ∧ e1.pc = nnn ∧ e1.sp = e.sp + 1 ∧
      e1.stack e.sp = e.pc + 2 ∧ tick e1 r2 = some e2 ∧
      e2.pc = e.pc + 2 ∧ e2.sp = e.sp := by
  have hop : (32 + nnn / 256) <<< 8 ||| nnn % 256
      = (32 + nnn / 256) * 256 + nnn % 256 := byte_or _ _ (by omega)
  have hd1 : ((32 + nnn / 256) * 256 + nnn % 256) / 4096 % 16 = 2 := by omega
  have hmod : ((32 + nnn / 256) * 256 + nnn % 256) % 4096 = nnn := by omega
  have htick1 : tick e r1 = some { e with pc := nnn, stack := updF e.stack e.sp (e.pc + 2), sp := e.sp + 1 } := by
    rw [tick, fetch, RAM_SIZE, if_pos hpc, hhi, hlo]
    dsimp only [Option.bind]
    rw [hop]
    unfold execute
    rw [hd1, execOp_call]
    dsimp only
    rw [push, STACK_SIZE]
    dsimp only
    rw [if_pos hsp]
    dsimp only [Option.map]
    rw [hmod]
  have htick2 : tick { e with pc := nnn, stack := updF e.stack e.sp (e.pc + 2), sp := e.sp + 1 } r2
      = some { e with pc := e.pc + 2, stack := updF e.stack e.sp (e.pc + 2), sp := e.sp } := by
    rw [tick, fetch, RAM_SIZE]
    dsimp only
    rw [if_pos hrpc]
    dsimp only [Option.bind]
    rw [hret0, hret1]
    rw [show (0 : Nat) <<< 8 ||| 238 = 238 from by decide]
    unfold execute
    norm_num
    rw [execOp_ret, pop]
    dsimp only
    rw [if_pos (Nat.succ_pos e.sp)]
    dsimp only [Option.map]
    rw [show e.sp + 1 - 1 = e.sp from rfl, updF_self]
  exact ⟨_, _, htick1, rfl, rfl, updF_self _ _ _, htick2, rfl, rfl⟩

/-- Witness for claim C7: call 0x300 from 0x200 with return at 0x300. -/
theorem c7_call_ret_roundtrip_witness :
    ∃ e1 e2, tick callEmu 0 = some e1 ∧ e1.pc = 768 ∧ e1.sp = callEmu.sp + 1 ∧
      e1.stack callEmu.sp = callEmu.pc + 2 ∧ tick e1 0 = some e2 ∧
      e2.pc = callEmu.pc + 2 ∧ e2.sp = callEmu.sp :=
  c7_call_ret_roundtrip callEmu 768 0 0 (by decide) (by decide) (by decide)
    (by decide) (by decide) (by decide) (by decide)

end Chip8

namespace Chip8

theorem execOp_draw (e : Emu) (rnd op d2 d3 d4 : Nat) :
    execOp e rnd op 13 d2 d3 d4
      = (if d4 = 0 ∨ e.i_reg + d4 ≤ 4096 then
          some { e with screen := (drawRun e.ram e.i_reg d2 d3 d4 e.screen).1,
                        v_reg := updF e.v_reg 15
                          (if (drawRun e.ram e.i_reg d2 d3 d4 e.screen).2 then 1 else 0) }
        else none) := rfl

theorem drawStep_factor (ram : Nat → Nat) (iv xN yN : Nat) :
    ∀ (pts : List (Nat × Nat)) (scr : Nat → Bool) (b : Bool),
      pts.foldl (drawStep ram iv xN yN) (scr, b)
        = (pts.filterMap (drawTgt ram iv xN yN)).foldl togStep (scr, b) := by
  intro pts
  induction pts with
  | nil => intro scr b; rfl
  | cons p ps ih =>
    intro scr b
    by_cases h : ram (iv + p.1) / 2 ^ (7 - p.2) % 2 = 1
    · have ht : drawTgt ram iv xN yN p = some (scrIdx xN yN p.1 p.2) := by
        rw [drawTgt, if_pos h]
      have hs : drawStep ram iv xN yN (scr, b) p
          = togStep (scr, b) (scrIdx xN yN p.1 p.2) := by
        rw [drawStep, if_pos h]; rfl
      rw [List.foldl_cons, hs, List.filterMap_cons, ht]
      dsimp only
      rw [List.foldl_cons]
      exact ih _ _
    · have ht : drawTgt ram iv xN yN p = none := by
        rw [drawTgt, if_neg h]
      have hs : drawStep ram iv xN yN (scr, b) p = (scr, b) := by
        rw [drawStep, if_neg h]
      rw [List.foldl_cons, hs, List.filterMap_cons, ht]
      dsimp only
      exact ih scr b

theorem drawRun_eq_togFold (ram : Nat → Nat) (iv xN yN n : Nat) (scr : Nat → Bool) :
    drawRun ram iv xN yN n scr
      = (drawTgts ram iv xN yN n).foldl togStep (scr, false) := by
  rw [drawRun, drawTgts]
  exact drawStep_factor ram iv xN yN (drawPts n) scr false

theorem togFold_screen :
    ∀ (ts : List Nat) (scr : Nat → Bool) (b : Bool) (j : Nat),
      ((ts.foldl togStep (scr, b)).1) j
        = if List.count j ts % 2 = 1 then !scr j else scr j := by
  intro ts
  induction ts with
  | nil => intro scr b j; simp
  | cons t ts ih =>
    intro scr b j
    rw [List.foldl_cons, show togStep (scr, b) t = (updF scr t (!scr t), b || scr t) from rfl, ih]
    by_cases hj : j = t
    · subst hj
      rw [updF_self, List.count_cons_self]
      by_cases hc : List.count j ts % 2 = 1
      · rw [if_pos hc, if_neg (by omega)]
        simp
      · rw [if_neg hc, if_pos (by omega)]
    · rw [updF_ne _ _ hj, List.count_cons_of_ne hj]

theorem any_congr_mem :
    ∀ (l : List Nat) (f g : Nat → Bool), (∀ u, u ∈ l → f u = g u) → l.any f = l.any g := by
  intro l
  induction l with
  | nil => intro f g _; rfl
  | cons a l ih =>
    intro f g h
    rw [List.any_cons, List.any_cons, h a (List.mem_cons_self a l),
      ih f g (fun u hu => h u (List.mem_cons_of_mem a hu))]

theorem togFold_flag :
    ∀ (ts : List Nat), ts.Nodup → ∀ (scr : Nat → Bool) (b : Bool),
      (ts.foldl togStep (scr, b)).2 = (b || ts.any (fun t => scr t)) := by
  intro ts
  induction ts with
  | nil => intro _ scr b; simp
  | cons t ts ih =>
    intro hnd scr b
    obtain ⟨hmem, htail⟩ := List.nodup_cons.mp hnd
    rw [List.foldl_cons, show togStep (scr, b) t = (updF scr t (!scr t), b || scr t) from rfl,
      ih htail]
    have hts : ts.any (fun u => updF scr t (!scr t) u) = ts.any (fun u => scr u) :=
      any_congr_mem ts _ _ (fun u hu => updF_ne _ _ (fun hut => hmem (hut ▸ hu)))
    rw [hts, List.any_cons, Bool.or_assoc]

theorem count_eq_one_of_nodup_mem {ts : List Nat} {t : Nat}
    (hnd : ts.Nodup) (ht : t ∈ ts) : List.count t ts = 1 := by
  have h1 := List.nodup_iff_count_le_one.mp hnd t
  have h2 := List.count_pos_iff.mpr ht
  omega

theorem mem_drawPts {n : Nat} {p : Nat × Nat} :
    p ∈ drawPts n ↔ p.1 < n ∧ p.2 < 8 := by
  obtain ⟨dy, dx⟩ := p
  simp only [drawPts, List.mem_flatMap, List.mem_map, List.mem_range]
  constructor
  · rintro ⟨a, ha, dx1, hdx1, heq⟩
    cases heq
    exact ⟨ha, hdx1⟩
  · rintro ⟨h1, h2⟩
    exact ⟨dy, h1, dx, h2, rfl⟩

theorem nodup_drawPts (n : Nat) : (drawPts n).Nodup := by
  rw [drawPts, List.nodup_flatMap]
  constructor
  · intro dy _
    exact (List.nodup_range 8).map (fun a b h => congrArg Prod.snd h)
  · refine (List.nodup_range n).imp ?_
    intro a b hab x hxa hxb
    obtain ⟨t1, _, he1⟩ := List.mem_map.mp hxa
    obtain ⟨t2, _, he2⟩ := List.mem_map.mp hxb
    exact hab (congrArg Prod.fst (he1.trans he2.symm))

theorem nodup_drawTgts (ram : Nat → Nat) (iv xN yN n : Nat)
    (hx : xN < 16) (hy : yN < 16) (hn : n < 16) :
    (drawTgts ram iv xN yN n).Nodup := by
  rw [drawTgts]
  have hpw : (drawPts n).Pairwise
      (fun p q => (p.1 < n ∧ p.2 < 8) ∧ (q.1 < n ∧ q.2 < 8) ∧ p ≠ q) :=
    (nodup_drawPts n).imp_of_mem
      (fun ha hb hne => ⟨mem_drawPts.mp ha, mem_drawPts.mp hb, hne⟩)
  refine List.Pairwise.filterMap (drawTgt ram iv xN yN) ?_ hpw
  · rintro p q ⟨⟨hp1, hp2⟩, ⟨hq1, hq2⟩, hpq⟩ b hb b1 hb1
    rw [drawTgt] at hb hb1
    by_cases hcp : ram (iv + p.1) / 2 ^ (7 - p.2) % 2 = 1
    · rw [if_pos hcp] at hb
      by_cases hcq : ram (iv + q.1) / 2 ^ (7 - q.2) % 2 = 1
      · rw [if_pos hcq] at hb1
        have hbv : b = scrIdx xN yN p.1 p.2 :=
          (Option.some_inj.mp (Option.mem_def.mp hb)).symm
        have hbv1 : b1 = scrIdx xN yN q.1 q.2 :=
          (Option.some_inj.mp (Option.mem_def.mp hb1)).symm
        subst hbv
        subst hbv1
        intro heq
        apply hpq
        rw [scrIdx, scrIdx, SCREEN_WIDTH, SCREEN_HEIGHT] at heq
        rw [Nat.mod_eq_of_lt (by omega), Nat.mod_eq_of_lt (by omega),
          Nat.mod_eq_of_lt (by omega), Nat.mod_eq_of_lt (by omega)] at heq
        have hfst : p.1 = q.1 := by omega
        have hsnd : p.2 = q.2 := by omega
        exact Prod.ext hfst hsnd
      · rw [if_neg hcq] at hb1
        exact absurd (Option.mem_def.mp hb1) (by simp)
    · rw [if_neg hcp] at hb
      exact absurd (Option.mem_def.mp hb) (by simp)

end Chip8

namespace Chip8

/-- Running the draw loop twice over the same sprite toggles every
targeted pixel twice, restoring the screen; on an initially blank target
set the first run reports no collision and the second run reports one. -/
theorem draw_twice_core (ram : Nat → Nat) (iv d2 d3 d4 : Nat) (scr : Nat → Bool)
    (h2 : d2 < 16) (h3 : d3 < 16) (h4 : d4 < 16) :
    (∀ j, (drawRun ram iv d2 d3 d4 (drawRun ram iv d2 d3 d4 scr).1).1 j = scr j)
    ∧ (drawTgts ram iv d2 d3 d4 ≠ [] →
       (∀ t ∈ drawTgts ram iv d2 d3 d4, scr t = false) →
       (drawRun ram iv d2 d3 d4 scr).2 = false
       ∧ (drawRun ram iv d2 d3 d4 (drawRun ram iv d2 d3 d4 scr).1).2 = true) := by
  have hnd := nodup_drawTgts ram iv d2 d3 d4 h2 h3 h4
  constructor
  · intro j
    rw [drawRun_eq_togFold, drawRun_eq_togFold, togFold_screen, togFold_screen]
    by_cases hc : List.count j (drawTgts ram iv d2 d3 d4) % 2 = 1 <;> simp [hc]
  · intro hne hunlit
    have hall : ∀ t ∈ drawTgts ram iv d2 d3 d4,
        (drawRun ram iv d2 d3 d4 scr).1 t = true := by
      intro t htm
      rw [drawRun_eq_togFold, togFold_screen, count_eq_one_of_nodup_mem hnd htm]
      simp [hunlit t htm]
    constructor
    · rw [drawRun_eq_togFold, togFold_flag _ hnd]
      have hany : (drawTgts ram iv d2 d3 d4).any (fun t => scr t) = false :=
        List.any_eq_false.mpr (fun t htm => by simp [hunlit t htm])
      rw [hany]
      rfl
    · rw [drawRun_eq_togFold, togFold_flag _ hnd]
      obtain ⟨t0, ht0⟩ := List.exists_mem_of_ne_nil _ hne
      rw [List.any_eq_true.mpr ⟨t0, ht0, hall t0 ht0⟩]
      rfl

/-- Claim C8: executing the same `DXYN` opcode twice in succession (the
sprite bytes being within RAM) restores every framebuffer pixel, and
when the sprite toggles at least one pixel with all its target pixels
initially unlit, the flag register is 0 after the first draw and 1
after the second. -/
theorem c8_draw_twice_involution (e : Emu) (op r1 r2 : Nat)
    (hd1 : op / 4096 % 16 = 13)
    (hbound : op % 16 = 0 ∨ e.i_reg + op % 16 ≤ 4096) :
    ∃ e1 e2, execute e op r1 = some e1 ∧ execute e1 op r2 = some e2 ∧
      (∀ j, e2.screen j = e.screen j) ∧
      (drawTgts e.ram e.i_reg (op / 256 % 16) (op / 16 % 16) (op % 16) ≠ [] →
        (∀ t ∈ drawTgts e.ram e.i_reg (op / 256 % 16) (op / 16 % 16) (op % 16),
          e.screen t = false) →
        e1.v_reg 15 = 0 ∧ e2.v_reg 15 = 1) := by
  have hcore := draw_twice_core e.ram e.i_reg (op / 256 % 16) (op / 16 % 16) (op % 16)
    e.screen (by omega) (by omega) (by omega)
  have hstep1 : execute e op r1 = some { e with screen := (drawRun e.ram e.i_reg (op / 256 % 16) (op / 16 % 16) (op % 16) e.screen).1, v_reg := updF e.v_reg 15 (if (drawRun e.ram e.i_reg (op / 256 % 16) (op / 16 % 16) (op % 16) e.screen).2 then 1 else 0) } := by
    unfold execute
    rw [hd1, execOp_draw, if_pos hbound]
  have hstep2 : ∀ (scr : Nat → Bool) (fl : Nat),
      execute { e with screen := scr, v_reg := updF e.v_reg 15 fl } op r2
        = some { e with screen := (drawRun e.ram e.i_reg (op / 256 % 16) (op / 16 % 16) (op % 16) scr).1, v_reg := updF (updF e.v_reg 15 fl) 15 (if (drawRun e.ram e.i_reg (op / 256 % 16) (op / 16 % 16) (op % 16) scr).2 then 1 else 0) } := by
    intro scr fl
    unfold execute
    rw [hd1, execOp_draw]
    dsimp only
    rw [if_pos hbound]
  refine ⟨_, _, hstep1, hstep2 _ _, ?_, ?_⟩
  · intro j
    exact hcore.1 j
  · intro hne hunlit
    obtain ⟨hF1, hF2⟩ := hcore.2 hne hunlit
    constructor
    · show updF e.v_reg 15 (if (drawRun e.ram e.i_reg (op / 256 % 16) (op / 16 % 16) (op % 16) e.screen).2 then 1 else 0) 15 = 0
      rw [updF_self, hF1]
      rfl
    · show updF (updF e.v_reg 15 (if (drawRun e.ram e.i_reg (op / 256 % 16) (op / 16 % 16) (op % 16) e.screen).2 then 1 else 0)) 15 (if (drawRun e.ram e.i_reg (op / 256 % 16) (op / 16 % 16) (op % 16) (drawRun e.ram e.i_reg (op / 256 % 16) (op / 16 % 16) (op % 16) e.screen).1).2 then 1 else 0) 15 = 1
      rw [updF_self, hF2]
      rfl

/-- Witness for claim C8: the two-row sprite 0xA5, 0x5A drawn twice by
`0xD232` on a blank screen. -/
theorem c8_draw_twice_involution_witness :
    ∃ e1 e2, execute dblEmu 0xD232 0 = some e1 ∧ execute e1 0xD232 1 = some e2 ∧
      (∀ j, e2.screen j = dblEmu.screen j) ∧
      (drawTgts dblEmu.ram dblEmu.i_reg (0xD232 / 256 % 16) (0xD232 / 16 % 16) (0xD232 % 16) ≠ [] →
        (∀ t ∈ drawTgts dblEmu.ram dblEmu.i_reg (0xD232 / 256 % 16) (0xD232 / 16 % 16) (0xD232 % 16),
          dblEmu.screen t = false) →
        e1.v_reg 15 = 0 ∧ e2.v_reg 15 = 1) :=
  c8_draw_twice_involution dblEmu 0xD232 0 1 (by decide) (by decide)

end Chip8
